import Mathlib

/-!
Verification of the suite_report.py workflow-report generator.

This file gives a shallow embedding of the data model and the operations of
the report generator: the task-table generation loop, the SRS/mirror URL
namespace conversion, the code-owner approval computation, the changed-file
post-filter with its bounded retry, the revision resolution, the job-source
setup, the generic Trac table row formatter, and the top-level report
delivery logic.  External effects (the fcm process, the file system, the
scheduler database) are modelled as explicit oracle parameters; dictionaries
are modelled as insertion-ordered association lists; Python dynamic regex
patterns built from table entries are modelled as literal substring matching,
which is exact whenever the table entries are free of regex metacharacters
(all instances used in the theorems below are).
-/

set_option maxRecDepth 4000

/-- The single-quote character, used to build Trac markup strings. -/
def quoteChar : Char := Char.ofNat 39

/-- The double-quote character. -/
def dblQuoteChar : Char := Char.ofNat 34

/-- Trac bold marker: three single quotes. -/
def tq : String := String.mk [quoteChar, quoteChar, quoteChar]

/-- Trac italic marker: two single quotes. -/
def dq2 : String := String.mk [quoteChar, quoteChar]

/-- Boolean substring test on character lists: does `pat` occur inside `l`?
Mirrors the Python `pat in s` operator and `re.search` with a literal
pattern. -/
def subListB (pat : List Char) : List Char → Bool
  | [] => pat.isPrefixOf ([] : List Char)
  | c :: t => pat.isPrefixOf (c :: t) || subListB pat t

/-- `strHas s pat` is the Python expression `pat in s`. -/
def strHas (s pat : String) : Bool := subListB pat.data s.data

/-- `startsWithB s pat` is the Python expression `s.startswith(pat)`. -/
def startsWithB (s pat : String) : Bool := pat.data.isPrefixOf s.data

/-- Replace the first occurrence of `pat` by `rep`, on character lists.
Mirrors Python `re.sub(pat, rep, s, count=1)` for a literal `pat`. -/
def replFirstL (pat rep : List Char) : List Char → List Char
  | [] => if pat.isPrefixOf ([] : List Char) then rep ++ List.drop pat.length [] else []
  | c :: t =>
      if pat.isPrefixOf (c :: t) then rep ++ List.drop pat.length (c :: t)
      else c :: replFirstL pat rep t

/-- Replace the first occurrence of `pat` in `s` by `rep`. -/
def replFirstS (s pat rep : String) : String := String.mk (replFirstL pat.data rep.data s.data)

/-- Python `s.lower()` (ASCII view). -/
def lowerS (s : String) : String := String.mk (s.data.map Char.toLower)

/-- Python `s.split(c)[-1]` for a single-character separator: the part of
the string after the last occurrence of the separator (the whole string when
the separator is absent). -/
def afterLastSlash (s : String) : String :=
  String.mk ((s.data.reverse.takeWhile (fun c => !(c == '/'))).reverse)

/-- Python `s.split("@")[0]`: the part of the string before the first "@"
(the whole string when "@" is absent). -/
def beforeFirstAt (s : String) : String :=
  String.mk (s.data.takeWhile (fun c => !(c == '@')))

/-- Python `s.strip()`: drop leading and trailing whitespace. -/
def trimS (s : String) : String :=
  String.mk (((s.data.dropWhile Char.isWhitespace).reverse.dropWhile Char.isWhitespace).reverse)

/-- Add `d` to the counter stored under key `k`, inserting the key at the end
when it is absent.  This is the behaviour of `defaultdict(int)` combined with
`counts[k] += d` under Python insertion-ordered dictionaries. -/
def bumpCount (l : List (String × Int)) (k : String) (d : Int) : List (String × Int) :=
  match l with
  | [] => [(k, d)]
  | (k0, v) :: t => if k0 == k then (k0, v + d) :: t else (k0, v) :: bumpCount t k d

/-- Sum of all counters in a counter list. -/
def sumCounts (l : List (String × Int)) : Int := l.foldr (fun p acc => p.2 + acc) 0

/-! ## Task table generation (SuiteReport.generate_task_table) -/

/-- The fixed list of sensitive substrings that flag a rose_ana failure
for the special pink highlight (HIGHLIGHT_ROSE_ANA_FAILS). -/
def HIGHLIGHT_ROSE_ANA_FAILS : List String :=
  ["_vs_", "lrun_crun_atmos", "proc", "atmos_omp", "atmos_nruncrun", "atmos_thread", "-v-"]

/-- The flagged-failure status bucket label (PINK_FAIL_TEXT). -/
def PINK_FAIL_TEXT : String := tq ++ "[[span(style=color: #FF00FF, pink failure )]]" ++ tq

/-- Opening markup of a pink-highlighted state cell. -/
def pinkStart : String := tq ++ "[[span(style=color: #FF00FF, *****"

/-- Closing markup of a pink-highlighted state cell. -/
def pinkEnd : String := "***** )]]" ++ tq

/-- Hidden-category key for housekeeping tasks. -/
def hiddenHousekeeping : String := dq2 ++ "Housekeeping" ++ dq2

/-- Hidden-category key for gatekeeping tasks. -/
def hiddenGatekeeping : String := dq2 ++ "Gatekeeping" ++ dq2

/-- Hidden-category key for monitoring tasks. -/
def hiddenMonitoring : String := dq2 ++ "Monitoring" ++ dq2

/-- Hidden-category key for suppressed succeeded tasks. -/
def hiddenSucceeded : String := tq ++ "Succeeded" ++ tq

/-- The mutable state threaded through the task-table loop of
`SuiteReport.generate_task_table`: the per-status tally, the hidden-category
tally, the itemized rows sent to the task table, the accumulated failed
configurations, and the all-hidden flag. -/
structure TaskTableState where
  statusCounts : List (String × Int)
  hiddenCounts : List (String × Int)
  rows : List (String × String)
  failedConfigs : List String
  hidden : Bool
deriving DecidableEq

/-- Initial task-table state: `status_counts` is seeded with a "failed"
entry holding zero, everything else empty. -/
def initTaskTableState : TaskTableState :=
  { statusCounts := [("failed", 0)], hiddenCounts := [], rows := [], failedConfigs := [],
    hidden := true }

/-- One iteration of the task loop of `SuiteReport.generate_task_table`,
processing a `(task, state)` pair. -/
def processTask (verbosity : Int) (onlyCommonGroups : Bool) (st : TaskTableState)
    (tk : String × String) : TaskTableState :=
  let task := tk.1
  let state := tk.2
  let st := { st with statusCounts := bumpCount st.statusCounts state 1 }
  if 1 ≤ verbosity ∧ startsWithB task "housekeep" = true then
    { st with hiddenCounts := bumpCount st.hiddenCounts hiddenHousekeeping 1 }
  else if 2 ≤ verbosity ∧ startsWithB task "gatekeeper" = true then
    { st with hiddenCounts := bumpCount st.hiddenCounts hiddenGatekeeping 1 }
  else if startsWithB task "monitor" = true then
    { st with hiddenCounts := bumpCount st.hiddenCounts hiddenMonitoring 1 }
  else if strHas state "succeeded" = true then
    if 4 ≤ verbosity ∨ (3 ≤ verbosity ∧ onlyCommonGroups = true) then
      { st with hiddenCounts := bumpCount st.hiddenCounts hiddenSucceeded 1 }
    else
      { st with rows := st.rows ++ [(task, state)], hidden := false }
  else if strHas task "rose_ana" = true ∧ strHas state "failed" = true then
    match HIGHLIGHT_ROSE_ANA_FAILS.find? (fun hl => strHas task hl) with
    | some _ =>
        { st with
            statusCounts := bumpCount (bumpCount st.statusCounts PINK_FAIL_TEXT 1) state (-1),
            rows := st.rows ++ [(task, pinkStart ++ state ++ pinkEnd)],
            hidden := false }
    | none =>
        { st with
            failedConfigs := st.failedConfigs ++ [task],
            rows := st.rows ++ [(task, tq ++ state ++ tq)],
            hidden := false }
  else
    { st with rows := st.rows ++ [(task, tq ++ state ++ tq)], hidden := false }

/-- The task loop of `SuiteReport.generate_task_table` over the sorted
`(task, state)` sequence. -/
def generateTaskTable (verbosity : Int) (onlyCommonGroups : Bool)
    (data : List (String × String)) : TaskTableState :=
  data.foldl (processTask verbosity onlyCommonGroups) initTaskTableState

/-- The COMMON_GROUPS allowlist for the meto site. -/
def COMMON_GROUPS_METO : List String :=
  ["all", "nightly", "developer", "xc40", "ex1a", "spice", "xc40_nightly", "ex1a_nightly",
   "spice_nightly", "xc40_developer", "ex1a_developer", "spice_developer", "ukca", "recon",
   "jules", "xc40_ukca", "ex1a_ukca", "spice_ukca", "xc40_jules", "ex1a_jules", "spice_jules"]

/-- The COMMON_GROUPS table (sites with empty allowlists abbreviated). -/
def COMMON_GROUPS : List (String × List String) :=
  [("meto", COMMON_GROUPS_METO), ("ecmwf", []), ("nci", []), ("bom", []), ("uoe", []),
   ("niwa", []), ("kma", []), ("vm", []), ("jasmin", []), ("cehwl1", []), ("mss", []),
   ("ncas", []), ("psc", []), ("Unknown", [])]

/-- The `only_common_groups` computation of `SuiteReport.parse_rose_suite_run`:
true when the site is meto and the group list holds "all", otherwise true
exactly when every stripped group is in the site allowlist.  Returns `none`
when the site has no COMMON_GROUPS entry (a Python KeyError). -/
def onlyCommonGroupsFor (site : String) (groups : List String) : Option Bool :=
  if site == "meto" && groups.contains "all" then some true
  else
    (List.lookup site COMMON_GROUPS).map (fun lst => groups.all (fun g => lst.contains (trimS g)))

/-! ## SRS and mirror URL conversion (Project.convert_to_srs / convert_to_mirror)

The keyword table `urls` is the insertion-ordered `{keyword: url}` dictionary
of the owning JobSources instance.  Table entries used as dynamic regex
patterns are modelled as literal strings; the fixed patterns of the source
are modelled exactly. -/

/-- The fixed regex check `re.search(r".x(|m)$", proj)`: the keyword ends in
any character followed by "x", or any character followed by "xm". -/
def endsDotXPat (s : String) : Bool :=
  (2 ≤ s.data.length && s.data.getLast? == some 'x')
  || (3 ≤ s.data.length && s.data.reverse.take 2 == ['m', 'x'])

/-- The well-formed shape of a public keyword: at least two characters and a
final letter x (the first alternative of the `.x(|m)$` pattern). -/
def endsXOnly (s : String) : Bool :=
  2 ≤ s.data.length && s.data.getLast? == some 'x'

/-- `re.sub(r"m$", "", proj)`: drop one trailing "m" when present. -/
def stripTrailingM (s : String) : String :=
  if s.data.getLast? == some 'm' then String.mk s.data.dropLast else s

/-- Does `pat` occur in `l` followed by at least one character that is not
the letter m?  Helper for the `re.search("fcm:" + proj + r"[^m]", url)`
check. -/
def nonMAfter (pat l : List Char) : Bool :=
  pat.isPrefixOf l &&
    (match l.drop pat.length with
     | [] => false
     | d :: _ => !(d == 'm'))

/-- Scan of `nonMAfter` across all positions of a list. -/
def fcmNonMHit (pat : List Char) : List Char → Bool
  | [] => nonMAfter pat []
  | c :: t => nonMAfter pat (c :: t) || fcmNonMHit pat t

/-- The check `re.search("fcm:" + proj + r"[^m]", url)` with `proj` read as
a literal keyword. -/
def containsFcmNonM (proj url : String) : Bool :=
  fcmNonMHit ("fcm:" ++ proj).data url.data

/-- Iteration of `Project.convert_to_mirror` over the remaining keyword-table
items: the first item whose URL (or keyword) occurs in `url` and whose
mirror keyword `proj + "m"` is also in the table triggers a single
substitution and stops the scan. -/
def convertToMirrorGo (urls : List (String × String)) (url : String) :
    List (String × String) → String
  | [] => url
  | (proj, projUrl) :: rest =>
      if strHas url projUrl then
        match List.lookup (proj ++ "m") urls with
        | some newUrl => replFirstS url projUrl newUrl
        | none => convertToMirrorGo urls url rest
      else if strHas url proj then
        match List.lookup (proj ++ "m") urls with
        | some _ => replFirstS url proj (proj ++ "m")
        | none => convertToMirrorGo urls url rest
      else convertToMirrorGo urls url rest

/-- `Project.convert_to_mirror`: convert an SRS URL to a mirror URL, or
return the input unchanged when no table entry matches. -/
def convertToMirror (urls : List (String × String)) (url : String) : String :=
  convertToMirrorGo urls url urls

/-- Iteration of `Project.convert_to_srs` over the remaining keyword-table
items.  Only keywords matching `.x(|m)$` are considered; the first match by
URL occurrence or by `fcm:` keyword occurrence whose brother keyword (the
keyword with a trailing "m" stripped) is in the table triggers a
substitution and stops the scan, expanding the `_tr` and `_br` keyword
suffixes to "/trunk" and "/branches". -/
def convertToSrsGo (urls : List (String × String)) (url : String) :
    List (String × String) → String
  | [] => url
  | (proj, projUrl) :: rest =>
      if endsDotXPat proj then
        if strHas url projUrl then
          match List.lookup (stripTrailingM proj) urls with
          | some sharedUrl => replFirstS url projUrl sharedUrl
          | none => convertToSrsGo urls url rest
        else if containsFcmNonM proj url then
          match List.lookup (stripTrailingM proj) urls with
          | some sharedUrl =>
              if startsWithB url ("fcm:" ++ proj ++ "_tr") then
                replFirstS url ("fcm:" ++ proj ++ "_tr") (sharedUrl ++ "/trunk")
              else if startsWithB url ("fcm:" ++ proj ++ "_br") then
                replFirstS url ("fcm:" ++ proj ++ "_br") (sharedUrl ++ "/branches")
              else replFirstS url proj (stripTrailingM proj)
          | none => convertToSrsGo urls url rest
        else convertToSrsGo urls url rest
      else convertToSrsGo urls url rest

/-- `Project.convert_to_srs`: convert a mirror URL to an SRS URL, or return
the input unchanged when no table entry matches. -/
def convertToSrs (urls : List (String × String)) (url : String) : String :=
  convertToSrsGo urls url urls

/-! ## Code owner approvals (SuiteReport.get_code_owners) -/

/-- `SuiteReport.lookup_ownership_section`: the fixed filename-prefix and
substring rules mapping a lowercased changed file to a section, or the empty
string when unidentified. -/
def lookupOwnershipSection (fle : String) : String :=
  if startsWithB fle "fcm-make" then "fcm-make_um"
  else if startsWithB fle "fab" then "fab"
  else if startsWithB fle "rose-stem" then
    if strHas fle "umdp3_check" then "umdp3_checker"
    else if strHas fle "run_cppcheck" then "run_cppcheck"
    else if strHas fle "rose-stem/bin" then "rose_bin"
    else "rose_stem"
  else if startsWithB fle "rose-meta" then
    if strHas fle "versions.py" then "upgrade_macros"
    else if strHas fle "rose-meta.conf" then "rose-meta.conf"
    else "stash"
  else ""

/-- The sentinel owner used when a resolved section has no ownership-table
entry. -/
def sentinelOwner : String := "Unknown - ensure section is in CodeOwners.txt"

/-- The fixed systems-team owner for the admin and bin top-level
directories. -/
def sysOwner : String := "!umsysteam@metoffice.gov.uk"

/-- Does a changed file name the ownership tables themselves?  Such files
are skipped by the loop of `get_code_owners`. -/
def isOwnershipFile (nf : String) : Bool :=
  strHas (lowerS nf) "configowners.txt" || strHas (lowerS nf) "codeowners.txt"

/-- The section a file resolves to before the ownership-table lookup: the
static lookup table on the lowercased name, falling back to the
header-comment oracle `hd` (the `get_file_section_header` export) on the
original-case path. -/
def resolvedSection (hd : String → String) (nf : String) : String :=
  let sec0 := lookupOwnershipSection (lowerS nf)
  if sec0 == "" then hd nf else sec0

/-- One iteration of the loop of `SuiteReport.get_code_owners` for an
already-normalised file: `none` when the file is skipped, otherwise the
single `(owner, section)` pair added to the approval map.  `K` is the
ownership table mapping a section to its owner and deputy. -/
def fileAttribution (hd : String → String) (K : List (String × String × String))
    (nf : String) : Option (String × String) :=
  let fle := lowerS nf
  if isOwnershipFile nf then none
  else if startsWithB fle "admin" then some (sysOwner, "admin")
  else if startsWithB fle "bin" then some (sysOwner, "bin")
  else
    let sec := resolvedSection hd nf
    match List.lookup sec K with
    | some (owner, deputy) =>
        some ((if 0 < deputy.length then owner ++ " (" ++ deputy ++ ")" else owner), sec)
    | none => some (sentinelOwner, sec)

/-- The attribution of a file with a default for the impossible skip case;
lets theorems name the owner and section of a non-skipped file without an
existential. -/
def attrOf (hd : String → String) (K : List (String × String × String))
    (nf : String) : String × String :=
  (fileAttribution hd K nf).getD ("", "")

/-- The part of `s` after the first occurrence of `pat`, scanning character
lists; `none` when `pat` does not occur. -/
def afterFirstL (pat : List Char) : List Char → Option (List Char)
  | [] => if pat.isPrefixOf ([] : List Char) then some [] else none
  | c :: t =>
      if pat.isPrefixOf (c :: t) then some ((c :: t).drop pat.length)
      else afterFirstL pat t

/-- Python `s.split(pat, 1)[1]`: the part after the first occurrence of
`pat`.  `none` models the ValueError on an empty separator and the
IndexError when `pat` does not occur. -/
def afterFirstSplit (s pat : String) : Option String :=
  if pat.data = [] then none
  else (afterFirstL pat.data s.data).map String.mk

/-- Python `s.strip("/")`: drop all leading and trailing slashes. -/
def stripSlashL (l : List Char) : List Char :=
  ((l.dropWhile (· == '/')).reverse.dropWhile (· == '/')).reverse

/-- String form of `stripSlashL`. -/
def stripSlashes (s : String) : String := String.mk (stripSlashL s.data)

/-- The `".."` path fix of `get_code_owners`: a path containing ".." is
split after the branch name (the last component of the revision-stripped
mirror location) and stripped of slashes; `none` models the exception when
the branch name is empty or absent from the path. -/
def normaliseFile (repoLoc : String) (fle : String) : Option String :=
  if strHas fle ".." then
    (afterFirstSplit fle (afterLastSlash repoLoc)).map stripSlashes
  else some fle

/-- Result of `SuiteReport.get_code_owners`: a crash from the ".." fix, the
Python `None` return for an empty changed-file list, or the approval map. -/
inductive CoResult where
  | crash : CoResult
  | noFiles : CoResult
  | approvals : List (String × List String) → CoResult
deriving DecidableEq

/-- `needed_approvals[owner].add(section)` on the insertion-ordered
owner-to-section-set map. -/
def addApproval (acc : List (String × List String)) (o s : String) :
    List (String × List String) :=
  match acc with
  | [] => [(o, [s])]
  | (o0, ss) :: t =>
      if o0 == o then (o0, if ss.contains s then ss else ss ++ [s]) :: t
      else (o0, ss) :: addApproval t o s

/-- The section set recorded for an owner (empty when the owner is absent). -/
def lookupSet (acc : List (String × List String)) (o : String) : List String :=
  (List.lookup o acc).getD []

/-- The file loop of `SuiteReport.get_code_owners`. -/
def goCodeOwners (hd : String → String) (K : List (String × String × String))
    (repoLoc : String) : List String → List (String × List String) → CoResult
  | [], acc => .approvals acc
  | f :: rest, acc =>
      match normaliseFile repoLoc f with
      | none => .crash
      | some nf =>
          match fileAttribution hd K nf with
          | none => goCodeOwners hd K repoLoc rest acc
          | some (o, s) => goCodeOwners hd K repoLoc rest (addApproval acc o s)

/-- `SuiteReport.get_code_owners`: returns `noFiles` (Python `None`) when no
files changed, otherwise folds every changed file into the owner-to-sections
approval map.  `repoMirror` is the mirror location whose `@revision` part is
stripped to obtain the repository location. -/
def getCodeOwners (hd : String → String) (K : List (String × String × String))
    (repoMirror : String) (files : List String) : CoResult :=
  if files.isEmpty then .noFiles
  else goCodeOwners hd K (beforeFirstAt repoMirror) files []

/-! ## Changed-file list (Project.get_altered_files_list) -/

/-- The Python `for item in bdiff_files: ... bdiff_files.remove(item)` loop:
iteration is by an index into the list being mutated, so a removal shifts
the remaining elements under the iterator.  An item whose last path
component has no "." is removed (first equal occurrence), the index always
advances.  The loop is phrased with a structurally decreasing fuel; fuel
equal to the starting list length always suffices because the index grows
by one per step while the length never grows, so the loop exits on the
index bound before the fuel can run out. -/
def noExtLoopF : Nat → List String → Nat → List String
  | 0, l, _ => l
  | fuel + 1, l, i =>
      if h : i < l.length then
        let item := l.get ⟨i, h⟩
        if strHas (afterLastSlash item) "." then noExtLoopF fuel l (i + 1)
        else noExtLoopF fuel (l.erase item) (i + 1)
      else l

/-- The post-filter of `get_altered_files_list`: remove one literal "."
entry when present, then run the extension filter loop from index 0. -/
def postFilterFiles (l : List String) : List String :=
  noExtLoopF (l.erase ".").length (l.erase ".") 0

/-- `Project.get_altered_files_list` with the branch-diff call abstracted as
an oracle `f` giving the outcome of each retry attempt: the first successful
attempt among the five supplies the raw list, the fallback is the empty
list, and the post-filter is applied to the outcome. -/
def getAlteredFilesList (f : Nat → Option (List String)) : List String :=
  postFilterFiles (((List.range 5).findSome? f).getD [])

/-! ## Approval table (SuiteReport.create_approval_table) -/

/-- Python `str.capitalize()`: first character uppercased, rest lowered. -/
def capitalizeS (s : String) : String :=
  match s.data with
  | [] => ""
  | c :: t => String.mk (c.toUpper :: t.map Char.toLower)

/-- The opening literal brace triple used by the approval cell markup. -/
def braces3open : String := "\x7b\x7b\x7b"

/-- The closing literal brace triple used by the approval cell markup. -/
def braces3close : String := "\x7d\x7d\x7d"

/-- The enumerated approval-cell accumulation of `create_approval_table`:
every third entry after the first is preceded by a line break. -/
def approvalCellGo : Nat → List String → String
  | _, [] => ""
  | i, w :: t =>
      (if i ≠ 0 ∧ i % 3 = 0 then "[[br]]" else "")
        ++ braces3open ++ w ++ braces3close ++ " " ++ approvalCellGo (i + 1) t

/-- The text of one owner's approval cell. -/
def approvalCellText (whats : List String) : String := approvalCellGo 0 whats

/-- The rows sent to the approval table by `create_approval_table`: the
degraded single row when no approvals are needed (the Python `None`
argument), else one row per owner. -/
def approvalTableRows (needed : Option (List (String × List String))) (mode : String) :
    List (List (Option String)) :=
  match needed with
  | none => [[none, none, some ("No UM " ++ capitalizeS mode ++ " Owner Approvals Required")]]
  | some aps => aps.map (fun p => [some p.1, some "Pending", some (approvalCellText p.2)])

/-! ## Revision resolution (Project.get_revisions) -/

/-- A location in both namespaces, as held by a Project under the
`"... loc"` and `"... mirror"` keys. -/
structure RevLoc where
  loc : Option String
  mirror : Option String
deriving DecidableEq

/-- One iteration of the loop of `Project.get_revisions` for a single
location: when both strings are present and the public location contains a
colon but no "@" pin, the head revision of the mirror is queried through the
oracle `headRev` and appended to both strings.  The second component lists
the mirror URLs queried. -/
def getRevisionsLoc (headRev : String → String) (rl : RevLoc) : RevLoc × List String :=
  match rl.loc, rl.mirror with
  | some url, some murl =>
      if strHas url ":" && !(strHas url "@") then
        let rev := headRev murl
        (⟨some (url ++ "@" ++ rev), some (murl ++ "@" ++ rev)⟩, [murl])
      else (rl, [])
  | _, _ => (rl, [])

/-- `Project.get_revisions`: the repo location followed by the parent
location, accumulating the head-revision queries issued. -/
def getRevisions (headRev : String → String) (repo par : RevLoc) :
    (RevLoc × RevLoc) × List String :=
  let r := getRevisionsLoc headRev repo
  let p := getRevisionsLoc headRev par
  ((r.1, p.1), r.2 ++ p.2)

/-! ## Job source setup (JobSources.setup) -/

/-- `_remove_quotes`: drop every double and single quote. -/
def removeQuotesS (s : String) : String :=
  String.mk (s.data.filter (fun c => !(c == dblQuoteChar) && !(c == quoteChar)))

/-- The fields of a constructed Project needed by the validity invariant:
the SRS location, the mirror location, and the mirror existence check
(`Project.check_repository`, abstracted as the oracle `repoOk`). -/
structure ProjectM where
  name : String
  repoLoc : String
  repoMirror : String
  valid : Bool
deriving DecidableEq

/-- Construction of a Project from its raw tested-source record, up to the
validity check: quotes are stripped, the source converted to the SRS
namespace and then to the mirror namespace, and the mirror checked for
existence. -/
def mkProject (urls : List (String × String)) (repoOk : String → Bool)
    (name target : String) : ProjectM :=
  let loc := convertToSrs urls (removeQuotesS target)
  let mir := convertToMirror urls loc
  { name := name, repoLoc := loc, repoMirror := mir, valid := repoOk mir }

/-- The construction loop of `JobSources.setup`: valid projects are added to
the project map in order, invalid project names are collected. -/
def setupGo (urls : List (String × String)) (repoOk : String → Bool) :
    List (String × String) → List (String × ProjectM) × List String
  | [] => ([], [])
  | (n, t) :: rest =>
      let item := mkProject urls repoOk n t
      let r := setupGo urls repoOk rest
      if item.valid then ((n, item) :: r.1, r.2) else (r.1, n :: r.2)

/-- `JobSources.setup`: build the project map and delete every invalid name
from the raw job-source record.  Returns the project map and the surviving
raw record. -/
def jobSourcesSetup (urls : List (String × String)) (repoOk : String → Bool)
    (sources : List (String × String)) :
    List (String × ProjectM) × List (String × String) :=
  let r := setupGo urls repoOk sources
  (r.1, sources.filter (fun p => !(r.2.contains p.1)))

/-! ## Generic table rows (TracFormatter.format_trac_table) -/

/-- Pad a row with empty cells up to the number of column headers, as done
before rendering by `format_trac_table`. -/
def padCells (columns : List String) (row : List (Option String)) : List (Option String) :=
  row ++ List.replicate (columns.length - row.length) (some "")

/-- Render a list of cells as one table line, `None` cells becoming empty. -/
def renderCells (cells : List (Option String)) : String :=
  String.join (cells.map (fun c => " || " ++ c.getD "")) ++ " ||"

/-- The row-handling step of the `format_trac_table` generator: a row longer
than the header list raises IndexError (the source message also interpolates
the repr of the row), otherwise the padded row is rendered. -/
def formatTracRow (columns : List String) (row : List (Option String)) :
    Except String String :=
  if columns.length < row.length then .error "row is too long for table"
  else .ok (renderCells (padCells columns row))

/-! ## Report delivery (SuiteReport.write_final_report and main) -/

/-- The fixed output file name. -/
def TRAC_LOG_FILE : String := "trac.log"

/-- The start marker printed before the echoed buffer on a write failure. -/
def startMarkerLine : String := "----- Start of " ++ TRAC_LOG_FILE ++ " -----"

/-- The end marker printed after the echoed buffer on a write failure. -/
def endMarkerLine : String := "\n----- End of " ++ TRAC_LOG_FILE ++ " -----\n\n"

/-- The error line naming the destination path on a write failure. -/
def writeErrLine (path : String) : String :=
  "[ERROR] Writing to " ++ TRAC_LOG_FILE ++ " file : " ++ path

/-- The explanatory line printed before the echoed buffer. -/
def wouldReadLine : String := TRAC_LOG_FILE ++ " to this point would have read as follows :\n"

/-- The observable outcome of report delivery: the destination file content
when the write succeeded, the lines printed to standard output, and whether
an exception propagates out of the program. -/
structure DeliveryOutcome where
  fileContent : Option String
  stdoutLines : List String
  raised : Bool
deriving DecidableEq

/-- `SuiteReport.write_final_report` with the file system abstracted by the
flag `writeOk`: on success the buffer is written (with the trailing newline
of `print`); on an IOError the buffer is echoed verbatim to standard output
between the start and end markers and the error is re-raised. -/
def writeFinalReport (writeOk : Bool) (path : String) (buffer : String) : DeliveryOutcome :=
  if writeOk then
    { fileContent := some (buffer ++ "\n"), stdoutLines := [], raised := false }
  else
    { fileContent := none,
      stdoutLines := [writeErrLine path, wouldReadLine, startMarkerLine, buffer, endMarkerLine],
      raised := true }

/-- The diagnostic pointer to the scheduler log written into the buffer by
the top-level exception handler of `main` (the space-joined multi-argument
print). -/
def diagnosticPointer (logPath : String) : String :=
  "There has been an exception in SuiteReport.  See output for more information "
    ++ "rose-stem suite output will be in the files :\n " ++ logPath ++ "\n\n"

/-- The buffer contents at delivery time: the partial report output, with
the diagnostic pointer and the traceback text appended when report assembly
raised. -/
def assembledBuffer (content : String) (err : Option String) (logPath : String) : String :=
  match err with
  | none => content
  | some tb => content ++ diagnosticPointer logPath ++ tb

/-- The try/except/finally dataflow of `main` around report assembly:
`content` is the buffered output produced before any failure, `err` the
traceback of an assembly exception when one escaped, and the `finally`
clause always delivers the assembled buffer; an assembly exception is
re-raised after delivery. -/
def mainDelivery (content : String) (err : Option String) (logPath : String)
    (writeOk : Bool) (path : String) : DeliveryOutcome :=
  let out := writeFinalReport writeOk path (assembledBuffer content err logPath)
  { out with raised := out.raised || err.isSome }

/-- Everything printed to standard output, joined in print order. -/
def joinLines (ls : List String) : String := ls.foldr (fun a b => a ++ "\n" ++ b) ""

/-- The text the user ends up with: the destination file when it was
written, otherwise the standard output stream. -/
def deliveredText (out : DeliveryOutcome) : String :=
  match out.fileContent with
  | some c => c
  | none => joinLines out.stdoutLines

/-! ## Theorems -/

theorem sumCounts_bumpCount (l : List (String × Int)) (k : String) (d : Int) :
    sumCounts (bumpCount l k d) = sumCounts l + d := by
  induction l with
  | nil => simp [bumpCount, sumCounts]
  | cons p t ih =>
      obtain ⟨k0, v⟩ := p
      by_cases h : (k0 == k) = true
      · simp only [bumpCount, h, if_true, sumCounts, List.foldr_cons]
        ring
      · simp only [bumpCount, h, if_false, Bool.false_eq_true, sumCounts, List.foldr_cons] at *
        omega

theorem processTask_measures (v : Int) (oc : Bool) (st : TaskTableState) (tk : String × String) :
    ((processTask v oc st tk).rows.length : Int)
        + sumCounts (processTask v oc st tk).hiddenCounts
      = (st.rows.length : Int) + sumCounts st.hiddenCounts + 1
    ∧ sumCounts (processTask v oc st tk).statusCounts = sumCounts st.statusCounts + 1 := by
  simp only [processTask]
  split_ifs <;>
    first
      | (constructor <;> (simp [sumCounts_bumpCount]; try omega))
      | (split <;> constructor <;> (simp [sumCounts_bumpCount]; try omega))

theorem generateTaskTable_measures (v : Int) (oc : Bool) :
    ∀ (data : List (String × String)) (st : TaskTableState),
      ((data.foldl (processTask v oc) st).rows.length : Int)
          + sumCounts (data.foldl (processTask v oc) st).hiddenCounts
        = (st.rows.length : Int) + sumCounts st.hiddenCounts + data.length
      ∧ sumCounts (data.foldl (processTask v oc) st).statusCounts
        = sumCounts st.statusCounts + data.length := by
  intro data
  induction data with
  | nil => intro st; simp
  | cons hd tl ih =>
      intro st
      have h := processTask_measures v oc st hd
      have h2 := ih (processTask v oc st hd)
      simp only [List.foldl_cons, List.length_cons]
      constructor <;> push_cast <;> omega

/-- C2: for every task-state sequence fed to the task-table generator, the
number of itemized rows plus the hidden-category tallies equals the total
number of tasks, and the status tally (including the flagged-failure
reclassification, whose increment of the pink bucket is paired with one
decrement of the original status bucket) also sums to the total number of
tasks. -/
theorem task_table_conservation (verbosity : Int) (onlyCommon : Bool)
    (data : List (String × String)) :
    ((generateTaskTable verbosity onlyCommon data).rows.length : Int)
        + sumCounts (generateTaskTable verbosity onlyCommon data).hiddenCounts
      = (data.length : Int)
    ∧ sumCounts (generateTaskTable verbosity onlyCommon data).statusCounts
      = (data.length : Int) := by
  have h := generateTaskTable_measures verbosity onlyCommon data initTaskTableState
  simpa [generateTaskTable, initTaskTableState, sumCounts] using h

/-- C1: in a run whose only run-group is not in the common-groups allowlist
(so succeeded tasks are not auto-hidden), at verbosity 3 the task table
shows the succeeded task, flags the failed task
`rose_ana_atmos_omp_vs_control` with the special pink highlight (the
substring `atmos_omp` is in the highlight list), and the status tally holds
exactly one flagged pink failure and one succeeded task (the original
"failed" bucket having been decremented back to zero). -/
theorem task_table_pink_scenario :
    onlyCommonGroupsFor "meto" ["mygroup"] = some false
    ∧ (generateTaskTable 3 false
        [("rose_ana_atmos_omp_vs_control", "failed"), ("atmos_task", "succeeded")]).rows
      = [("rose_ana_atmos_omp_vs_control", pinkStart ++ "failed" ++ pinkEnd),
         ("atmos_task", "succeeded")]
    ∧ (generateTaskTable 3 false
        [("rose_ana_atmos_omp_vs_control", "failed"), ("atmos_task", "succeeded")]).statusCounts
      = [("failed", 0), (PINK_FAIL_TEXT, 1), ("succeeded", 1)]
    ∧ strHas "rose_ana_atmos_omp_vs_control" "atmos_omp" = true
    ∧ HIGHLIGHT_ROSE_ANA_FAILS.find?
        (fun hl => strHas "rose_ana_atmos_omp_vs_control" hl) = some "_vs_" := by
  decide

theorem isPrefixOf_append_self (a b : List Char) : a.isPrefixOf (a ++ b) = true := by
  rw [List.isPrefixOf_iff_prefix]
  exact List.prefix_append a b

theorem subListB_iff_IsInfix (pat l : List Char) : subListB pat l = true ↔ pat <:+: l := by
  induction l with
  | nil =>
      simp only [subListB, List.isPrefixOf_iff_prefix]
      constructor
      · intro h; exact h.isInfix
      · intro h
        rcases h with ⟨s, t, hst⟩
        rcases List.append_eq_nil.mp hst with ⟨h1, h2⟩
        rcases List.append_eq_nil.mp h1 with ⟨h3, h4⟩
        simp [h4]
  | cons c t ih =>
      simp only [subListB, Bool.or_eq_true, List.isPrefixOf_iff_prefix, ih,
        List.infix_cons_iff]

theorem subListB_append_self (a b : List Char) : subListB a (a ++ b) = true := by
  rw [subListB_iff_IsInfix]
  exact ⟨[], b, by simp⟩

theorem strHas_left (a b : String) : strHas (a ++ b) a = true := by
  rw [strHas, String.data_append]
  exact subListB_append_self a.data b.data

theorem replFirstL_append_self (pat rep rest : List Char) :
    replFirstL pat rep (pat ++ rest) = rep ++ rest := by
  cases hl : pat ++ rest with
  | nil =>
      rcases List.append_eq_nil.mp hl with ⟨h1, h2⟩
      subst h1; subst h2
      simp [replFirstL]
  | cons c t =>
      rw [replFirstL]
      rw [← hl, isPrefixOf_append_self]
      simp [List.drop_left]

theorem replFirstS_left (a b c : String) : replFirstS (a ++ b) a c = c ++ b := by
  rw [replFirstS, String.data_append, replFirstL_append_self]
  apply String.ext
  simp [String.data_append]

theorem fcmNonMHit_sub (pat l : List Char) (h : fcmNonMHit pat l = true) :
    subListB pat l = true := by
  induction l with
  | nil =>
      simp only [fcmNonMHit, nonMAfter, Bool.and_eq_true] at h
      rcases h with ⟨h1, h2⟩
      simp only [List.drop_nil] at h2
      cases h2
  | cons c t ih =>
      simp only [fcmNonMHit, Bool.or_eq_true] at h
      rcases h with h | h
      · simp only [nonMAfter, Bool.and_eq_true] at h
        simp [subListB, h.1]
      · simp [subListB, ih h]

theorem containsFcmNonM_strHas (proj url : String) (h : containsFcmNonM proj url = true) :
    strHas url proj = true := by
  rw [containsFcmNonM] at h
  have h2 := fcmNonMHit_sub _ _ h
  rw [subListB_iff_IsInfix] at h2
  rw [strHas, subListB_iff_IsInfix]
  refine List.IsInfix.trans ?_ h2
  rw [String.data_append]
  exact ⟨("fcm:" : String).data, [], by simp⟩

theorem convertToMirrorGo_id (urls : List (String × String)) (u : String)
    (K : List (String × String))
    (h : ∀ pr ∈ K, strHas u pr.2 = false ∧ strHas u pr.1 = false) :
    convertToMirrorGo urls u K = u := by
  induction K with
  | nil => rfl
  | cons pr rest ih =>
      obtain ⟨proj, projUrl⟩ := pr
      have h1 := h (proj, projUrl) (List.mem_cons_self _ _)
      simp only [convertToMirrorGo, h1.1, h1.2, Bool.false_eq_true, if_false]
      exact ih (fun q hq => h q (List.mem_cons_of_mem _ hq))

theorem convertToSrsGo_id (urls : List (String × String)) (u : String)
    (K : List (String × String))
    (h : ∀ pr ∈ K, strHas u pr.2 = false ∧ strHas u pr.1 = false) :
    convertToSrsGo urls u K = u := by
  induction K with
  | nil => rfl
  | cons pr rest ih =>
      obtain ⟨proj, projUrl⟩ := pr
      have h1 := h (proj, projUrl) (List.mem_cons_self _ _)
      have hfcm : containsFcmNonM proj u = false := by
        cases hc : containsFcmNonM proj u with
        | false => rfl
        | true => rw [containsFcmNonM_strHas proj u hc] at h1; cases h1.2
      have ht := ih (fun q hq => h q (List.mem_cons_of_mem _ hq))
      simp only [convertToSrsGo, h1.1, hfcm, Bool.false_eq_true, if_false]
      split <;> exact ht

theorem append_m_ne (p : String) : ((p ++ "m") == p) = false := by
  apply beq_eq_false_iff_ne.mpr
  intro h
  have hm : ("m" : String).data = ['m'] := rfl
  have hlen := congrArg (fun s : String => s.data.length) h
  simp [String.data_append, hm] at hlen

theorem lookup_pm (p U M : String) :
    List.lookup (p ++ "m") [(p, U), (p ++ "m", M)] = some M := by
  simp [List.lookup, append_m_ne p]

theorem lookup_p (p U M : String) :
    List.lookup p [(p, U), (p ++ "m", M)] = some U := by
  simp [List.lookup]

theorem endsDotXPat_of_endsXOnly (p : String) (hp : endsXOnly p = true) :
    endsDotXPat p = true := by
  rw [endsDotXPat]
  rw [endsXOnly] at hp
  rw [hp]
  exact Bool.true_or _

theorem data_append_m (p : String) : (p ++ "m").data = p.data ++ ['m'] := by
  rw [String.data_append]

theorem endsDotXPat_pm (p : String) (hp : endsXOnly p = true) :
    endsDotXPat (p ++ "m") = true := by
  rw [endsXOnly, Bool.and_eq_true] at hp
  obtain ⟨hlen, hlast⟩ := hp
  rw [beq_iff_eq] at hlast
  have hrev : p.data.reverse.head? = some 'x' := by
    rw [List.head?_reverse]
    exact hlast
  obtain ⟨t, ht⟩ : ∃ t, p.data.reverse = 'x' :: t := by
    cases hr : p.data.reverse with
    | nil => rw [hr] at hrev; cases hrev
    | cons a s =>
        rw [hr] at hrev
        simp only [List.head?_cons, Option.some_inj] at hrev
        exact ⟨s, by rw [hrev]⟩
  rw [endsDotXPat, data_append_m]
  apply Bool.or_eq_true_iff.mpr
  right
  rw [Bool.and_eq_true]
  constructor
  · apply decide_eq_true
    have h2 := of_decide_eq_true hlen
    simp only [List.length_append, List.length_cons, List.length_nil]
    omega
  · rw [beq_iff_eq, List.reverse_append]
    simp [ht]

theorem stripTrailingM_pm (p : String) : stripTrailingM (p ++ "m") = p := by
  rw [stripTrailingM, data_append_m]
  rw [List.getLast?_concat]
  simp only [beq_self_eq_true, if_true, List.dropLast_concat]

/-- C3 counterexample: with the keyword table `ax ↦ u, axm ↦ uu` the URL
"u" is recognized (the entry for keyword ax matches it and the conversion
substitutes the mirror URL), yet converting to the mirror namespace and
back does not return the original URL: the public URL "u" is a substring of
its own mirror URL "uu", so the reverse scan substitutes "u" for "u" inside
"uu" and leaves "uu" unchanged. -/
theorem convert_roundtrip_cex :
    strHas "u" "u" = true
    ∧ convertToMirror [("ax", "u"), ("axm", "uu")] "u" = "uu"
    ∧ convertToSrs [("ax", "u"), ("axm", "uu")]
        (convertToMirror [("ax", "u"), ("axm", "uu")] "u") = "uu"
    ∧ ("uu" : String) ≠ "u" := by
  decide

/-- C3 amended: a URL matching no table entry is returned unchanged by both
conversions (the identity law).  The mirror-then-public round trip holds for
a public/mirror keyword pair `p / p ++ "m"` (with `p` of the public keyword
shape, ending in x) on a URL extending the public URL `U`, provided the
mirror substitution leaves no occurrence of `U` behind and the converted URL
does not contain the `fcm:` keyword pattern for `p`; without these provisos
the round trip can fail, as the counterexample shows. -/
theorem convert_roundtrip_amended :
    (∀ (K : List (String × String)) (u : String),
        (∀ pr ∈ K, strHas u pr.2 = false ∧ strHas u pr.1 = false) →
        convertToMirror K u = u ∧ convertToSrs K u = u)
    ∧ (∀ (p U M r : String), endsXOnly p = true →
        strHas (M ++ r) U = false → containsFcmNonM p (M ++ r) = false →
        convertToMirror [(p, U), (p ++ "m", M)] (U ++ r) = M ++ r
        ∧ convertToSrs [(p, U), (p ++ "m", M)] (M ++ r) = U ++ r) := by
  constructor
  · intro K u h
    exact ⟨convertToMirrorGo_id K u K h, convertToSrsGo_id K u K h⟩
  · intro p U M r hp h2 h3
    constructor
    · rw [convertToMirror]
      simp only [convertToMirrorGo, strHas_left, if_true, lookup_pm]
      exact replFirstS_left U r M
    · rw [convertToSrs]
      simp only [convertToSrsGo, endsDotXPat_of_endsXOnly p hp, if_true, h2, h3,
        Bool.false_eq_true, if_false, endsDotXPat_pm p hp, strHas_left,
        stripTrailingM_pm, lookup_p]
      exact replFirstS_left M r U

/-- Witness for the amended C3 theorem: a concrete unmatched URL is fixed by
both conversions, and a concrete well-formed pair round-trips. -/
theorem convert_roundtrip_amended_witness :
    (convertToMirror [("um.x", "svn://srs/um")] "zzz" = "zzz"
      ∧ convertToSrs [("um.x", "svn://srs/um")] "zzz" = "zzz")
    ∧ (convertToMirror [("a.x", "psrc"), ("a.x" ++ "m", "qsrc")] ("psrc" ++ "/t")
        = "qsrc" ++ "/t"
      ∧ convertToSrs [("a.x", "psrc"), ("a.x" ++ "m", "qsrc")] ("qsrc" ++ "/t")
        = "psrc" ++ "/t") :=
  ⟨convert_roundtrip_amended.1 [("um.x", "svn://srs/um")] "zzz" (by decide),
   convert_roundtrip_amended.2 "a.x" "psrc" "qsrc" "/t" (by decide) (by decide) (by decide)⟩

theorem mem_lookupSet_addApproval_self (acc : List (String × List String)) (o s : String) :
    s ∈ lookupSet (addApproval acc o s) o := by
  induction acc with
  | nil => simp [addApproval, lookupSet, List.lookup]
  | cons p t ih =>
      obtain ⟨o0, ss⟩ := p
      by_cases h : (o0 == o) = true
      · have heq : o0 = o := beq_iff_eq.mp h
        subst heq
        simp only [addApproval, beq_self_eq_true, if_true, lookupSet, List.lookup,
          Option.getD_some]
        by_cases hc : ss.contains s = true
        · simp only [hc, if_true]
          exact List.mem_of_elem_eq_true (by simpa [List.contains] using hc)
        · simp only [hc, Bool.false_eq_true, if_false]
          exact List.mem_append_right _ (List.mem_singleton_self s)
      · have hne : (o == o0) = false := by
          apply beq_eq_false_iff_ne.mpr
          intro he
          rw [he] at h
          exact h (beq_self_eq_true o0)
        simp only [addApproval, h, Bool.false_eq_true, if_false, lookupSet, List.lookup, hne]
        exact ih

theorem mem_lookupSet_addApproval_mono (acc : List (String × List String))
    (o s o2 x : String) (h : x ∈ lookupSet acc o2) :
    x ∈ lookupSet (addApproval acc o s) o2 := by
  induction acc with
  | nil => simp [lookupSet, List.lookup] at h
  | cons p t ih =>
      obtain ⟨o0, ss⟩ := p
      by_cases h0 : (o0 == o) = true
      · simp only [addApproval, h0, if_true]
        by_cases h2 : (o2 == o0) = true
        · simp only [lookupSet, List.lookup, h2, Option.getD_some] at h ⊢
          split
          · exact h
          · exact List.mem_append_left _ h
        · simp only [lookupSet, List.lookup, h2, Bool.false_eq_true] at h ⊢
          exact h
      · simp only [addApproval, h0, Bool.false_eq_true, if_false]
        by_cases h2 : (o2 == o0) = true
        · simp only [lookupSet, List.lookup, h2, Option.getD_some] at h ⊢
          exact h
        · simp only [lookupSet, List.lookup, h2, Bool.false_eq_true] at h ⊢
          exact ih h

theorem goCodeOwners_mono (hd : String → String) (K : List (String × String × String))
    (rl : String) :
    ∀ (files : List String) (acc A : List (String × List String)),
      goCodeOwners hd K rl files acc = CoResult.approvals A →
      ∀ o x, x ∈ lookupSet acc o → x ∈ lookupSet A o := by
  intro files
  induction files with
  | nil =>
      intro acc A h o x hx
      simp only [goCodeOwners, CoResult.approvals.injEq] at h
      rw [← h]
      exact hx
  | cons g rest ih =>
      intro acc A h o x hx
      simp only [goCodeOwners] at h
      cases hn : normaliseFile rl g with
      | none =>
          simp only [hn] at h
          exact CoResult.noConfusion h
      | some ng =>
          simp only [hn] at h
          cases ha : fileAttribution hd K ng with
          | none =>
              simp only [ha] at h
              exact ih acc A h o x hx
          | some pr =>
              obtain ⟨o2, s2⟩ := pr
              simp only [ha] at h
              exact ih _ A h o x (mem_lookupSet_addApproval_mono acc o2 s2 o x hx)

theorem goCodeOwners_attr (hd : String → String) (K : List (String × String × String))
    (rl : String) :
    ∀ (files : List String) (acc A : List (String × List String)),
      goCodeOwners hd K rl files acc = CoResult.approvals A →
      ∀ f ∈ files, ∀ (nf o s : String),
        normaliseFile rl f = some nf → fileAttribution hd K nf = some (o, s) →
        s ∈ lookupSet A o := by
  intro files
  induction files with
  | nil => intro acc A h f hf; cases hf
  | cons g rest ih =>
      intro acc A h f hf nf o s hnorm hattr
      rcases List.mem_cons.mp hf with hfg | hfr
      · subst hfg
        simp only [goCodeOwners, hnorm, hattr] at h
        exact goCodeOwners_mono hd K rl rest _ A h o s
          (mem_lookupSet_addApproval_self acc o s)
      · simp only [goCodeOwners] at h
        cases hn : normaliseFile rl g with
        | none =>
            simp only [hn] at h
            exact CoResult.noConfusion h
        | some ng =>
            simp only [hn] at h
            cases ha : fileAttribution hd K ng with
            | none =>
                simp only [ha] at h
                exact ih acc A h f hfr nf o s hnorm hattr
            | some pr =>
                obtain ⟨o2, s2⟩ := pr
                simp only [ha] at h
                exact ih _ A h f hfr nf o s hnorm hattr

theorem fileAttribution_isSome (hd : String → String) (K : List (String × String × String))
    (nf : String) (h : isOwnershipFile nf = false) :
    (fileAttribution hd K nf).isSome = true := by
  rw [fileAttribution]
  simp only [h, Bool.false_eq_true, if_false]
  split_ifs <;> try simp
  split <;> simp

theorem option_eq_some_getD {α : Type} (o : Option α) (d : α) (h : o.isSome = true) :
    o = some (o.getD d) := by
  cases o with
  | none => cases h
  | some v => rfl

/-- C4 counterexample: a changed-file list holding only an ownership-table
file yields an empty approval map although the list is not empty: the file
named `CodeOwners.txt` is skipped by the loop, so it appears in no owner
approval set, refuting the claim that no file silently vanishes. -/
theorem get_code_owners_cex :
    getCodeOwners (fun _ => "") [("admin", ("alice", ""))] "svn://m/um@1"
        ["um/CodeOwners.txt"] = CoResult.approvals []
    ∧ ("um/CodeOwners.txt" : String) ∈ ["um/CodeOwners.txt"]
    ∧ fileAttribution (fun _ => "") [("admin", ("alice", ""))] "um/CodeOwners.txt" = none := by
  refine ⟨by decide, ?_, by decide⟩
  exact List.mem_singleton_self _

/-- C4 amended: in `get_code_owners`, every changed file other than the
ownership-table files themselves contributes to exactly one owner approval
set.  For a file list whose normalisation succeeds and produced an approval
map: an ownership-table file is skipped (no attribution), and every other
file has exactly one `(owner, section)` attribution, its section is in that
owner approval set in the result, and a file whose resolved section has no
ownership-table entry (and is not routed by the fixed admin and bin rules)
is attributed to the sentinel owner rather than dropped. -/
theorem get_code_owners_amended (hd : String → String)
    (K : List (String × String × String)) (rm : String) (files : List String)
    (A : List (String × List String)) (f nf : String)
    (hres : getCodeOwners hd K rm files = CoResult.approvals A)
    (hf : f ∈ files)
    (hnorm : normaliseFile (beforeFirstAt rm) f = some nf) :
    (isOwnershipFile nf = true → fileAttribution hd K nf = none)
    ∧ (isOwnershipFile nf = false →
        fileAttribution hd K nf = some (attrOf hd K nf)
        ∧ (attrOf hd K nf).2 ∈ lookupSet A (attrOf hd K nf).1
        ∧ (startsWithB (lowerS nf) "admin" = false →
            startsWithB (lowerS nf) "bin" = false →
            List.lookup (resolvedSection hd nf) K = none →
            (attrOf hd K nf).1 = sentinelOwner)) := by
  have hne : files.isEmpty = false := by
    cases files with
    | nil => cases hf
    | cons a t => rfl
  rw [getCodeOwners, hne] at hres
  simp only [Bool.false_eq_true, if_false] at hres
  constructor
  · intro h
    rw [fileAttribution]
    simp only [h, if_true]
  · intro h
    have hsome := fileAttribution_isSome hd K nf h
    have heq := option_eq_some_getD (fileAttribution hd K nf) ("", "") hsome
    refine ⟨heq, ?_, ?_⟩
    · exact goCodeOwners_attr hd K (beforeFirstAt rm) files [] A hres f hf nf
        (attrOf hd K nf).1 (attrOf hd K nf).2 hnorm (by simpa [attrOf] using heq)
    · intro ha hb hl
      rw [attrOf, fileAttribution]
      simp only [h, Bool.false_eq_true, if_false, ha, hb, hl, Option.getD_some]

/-- Witness for the amended C4 theorem at a concrete run: a file resolving
to no ownership-table entry is attributed to the sentinel owner and its
section reaches the sentinel owner approval set. -/
theorem get_code_owners_amended_witness :
    fileAttribution (fun _ => "") [] "zzz.f90" = some (sentinelOwner, "")
    ∧ "" ∈ lookupSet [(sentinelOwner, [""])] sentinelOwner := by
  have h := get_code_owners_amended (fun _ => "") [] "svn://m/um@1" ["zzz.f90"]
      [(sentinelOwner, [""])] "zzz.f90" "zzz.f90" (by decide)
      (List.mem_singleton_self _) (by decide)
  have h2 := h.2 (by decide)
  have hattr : attrOf (fun _ => "") [] "zzz.f90" = (sentinelOwner, "") := by decide
  refine ⟨?_, ?_⟩
  · rw [h2.1, hattr]
  · have hmem := h2.2.1
    rw [hattr] at hmem
    exact hmem

/-- C5: the extension post-filter of `get_altered_files_list` mutates the
list while iterating over it by index, so removing an entry skips the next
one: on the raw diff output `["dir1", "dir2"]` (two adjacent entries whose
last components lack a file extension) the function returns `["dir2"]`, an
entry with no file extension, although the docstring of the function states
that all such entries are removed. -/
theorem altered_files_directory_bug :
    getAlteredFilesList (fun _ => some ["dir1", "dir2"]) = ["dir2"]
    ∧ strHas (afterLastSlash "dir2") "." = false := by
  decide

/-- C6: when the branch-diff oracle fails on all five retry attempts,
`get_altered_files_list` returns the empty list instead of raising, the
code-owner computation on that empty list returns the Python `None`
(noFiles), and the approval table degrades to the single row stating that
no approvals are required. -/
theorem diff_retry_fallback (f : Nat → Option (List String)) (hd : String → String)
    (K : List (String × String × String)) (rm : String)
    (hfail : ∀ i, i < 5 → f i = none) :
    getAlteredFilesList f = []
    ∧ getCodeOwners hd K rm (getAlteredFilesList f) = CoResult.noFiles
    ∧ approvalTableRows none "code"
      = [[none, none, some "No UM Code Owner Approvals Required"]] := by
  have hnone : (List.range 5).findSome? f = none := by
    have e : List.range 5 = [0, 1, 2, 3, 4] := rfl
    rw [e]
    simp [List.findSome?, hfail 0 (by omega), hfail 1 (by omega), hfail 2 (by omega),
      hfail 3 (by omega), hfail 4 (by omega)]
  have hlist : getAlteredFilesList f = [] := by
    rw [getAlteredFilesList, hnone]
    rfl
  refine ⟨hlist, ?_, by decide⟩
  rw [hlist]
  rfl

/-- Witness for C6 at the always-failing oracle. -/
theorem diff_retry_fallback_witness :
    getAlteredFilesList (fun _ => none) = []
    ∧ getCodeOwners (fun _ => "") [] "m" (getAlteredFilesList (fun _ => none))
      = CoResult.noFiles
    ∧ approvalTableRows none "code"
      = [[none, none, some "No UM Code Owner Approvals Required"]] :=
  diff_retry_fallback (fun _ => none) (fun _ => "") [] "m" (fun _ _ => rfl)

theorem strHas_of_data_occurrence (s pat : String) (h : pat.data <:+: s.data) :
    strHas s pat = true :=
  (subListB_iff_IsInfix pat.data s.data).mpr h

/-- C7: whatever happens, the user receives the buffered document.  The
partial assembly output always occurs in the delivered text; when report
assembly raised, the diagnostic pointer to the scheduler log is in the
delivered text and the error still propagates; when the destination write
fails, standard output receives exactly the error line, the explanation,
the start marker, the full buffered document verbatim and the end marker,
and the write error propagates; when the write succeeds the destination
file holds the full buffer. -/
theorem report_always_delivered (content : String) (err : Option String)
    (logPath path : String) (writeOk : Bool) :
    strHas (deliveredText (mainDelivery content err logPath writeOk path)) content = true
    ∧ (err.isSome = true →
        strHas (deliveredText (mainDelivery content err logPath writeOk path))
          (diagnosticPointer logPath) = true
        ∧ (mainDelivery content err logPath writeOk path).raised = true)
    ∧ (writeOk = false →
        (mainDelivery content err logPath writeOk path).stdoutLines
          = [writeErrLine path, wouldReadLine, startMarkerLine,
             assembledBuffer content err logPath, endMarkerLine]
        ∧ (mainDelivery content err logPath writeOk path).raised = true)
    ∧ (writeOk = true →
        (mainDelivery content err logPath writeOk path).fileContent
          = some (assembledBuffer content err logPath ++ "\n")) := by
  have hc : content.data <:+: (assembledBuffer content err logPath).data := by
    cases err with
    | none => exact List.infix_refl _
    | some tb =>
        refine ⟨[], (diagnosticPointer logPath).data ++ tb.data, ?_⟩
        simp [assembledBuffer, String.data_append]
  have hdiag : ∀ tb, err = some tb →
      (diagnosticPointer logPath).data <:+: (assembledBuffer content err logPath).data := by
    intro tb he
    subst he
    refine ⟨content.data, tb.data, ?_⟩
    simp [assembledBuffer, String.data_append]
  cases writeOk with
  | true =>
      have hdel : deliveredText (mainDelivery content err logPath true path)
          = assembledBuffer content err logPath ++ "\n" := rfl
      have hbuf : (assembledBuffer content err logPath).data
          <:+: (deliveredText (mainDelivery content err logPath true path)).data := by
        rw [hdel, String.data_append]
        exact ⟨[], ("\n" : String).data, by simp⟩
      refine ⟨strHas_of_data_occurrence _ _ (hc.trans hbuf), ?_, ?_, ?_⟩
      · intro he
        obtain ⟨tb, htb⟩ := Option.isSome_iff_exists.mp he
        refine ⟨strHas_of_data_occurrence _ _ ((hdiag tb htb).trans hbuf), ?_⟩
        simp [mainDelivery, writeFinalReport, htb]
      · intro h
        exact absurd h (by simp)
      · intro _
        rfl
  | false =>
      have hdel : deliveredText (mainDelivery content err logPath false path)
          = joinLines [writeErrLine path, wouldReadLine, startMarkerLine,
              assembledBuffer content err logPath, endMarkerLine] := rfl
      have hbuf : (assembledBuffer content err logPath).data
          <:+: (deliveredText (mainDelivery content err logPath false path)).data := by
        rw [hdel]
        refine ⟨(writeErrLine path ++ "\n" ++ (wouldReadLine ++ "\n"
            ++ (startMarkerLine ++ "\n"))).data,
          ("\n" ++ (endMarkerLine ++ "\n")).data, ?_⟩
        simp [joinLines, String.data_append, List.append_assoc]
      refine ⟨strHas_of_data_occurrence _ _ (hc.trans hbuf), ?_, ?_, ?_⟩
      · intro he
        obtain ⟨tb, htb⟩ := Option.isSome_iff_exists.mp he
        refine ⟨strHas_of_data_occurrence _ _ ((hdiag tb htb).trans hbuf), ?_⟩
        simp [mainDelivery, writeFinalReport]
      · intro _
        exact ⟨rfl, rfl⟩
      · intro h
        exact absurd h (by simp)

/-- Witness for C7 at a concrete failing run: assembly raised with
traceback "T" and the destination write failed. -/
theorem report_always_delivered_witness :
    strHas (deliveredText (mainDelivery "P" (some "T") "L" false "F")) "P" = true
    ∧ strHas (deliveredText (mainDelivery "P" (some "T") "L" false "F"))
        (diagnosticPointer "L") = true
    ∧ (mainDelivery "P" (some "T") "L" false "F").stdoutLines
      = [writeErrLine "F", wouldReadLine, startMarkerLine,
         assembledBuffer "P" (some "T") "L", endMarkerLine]
    ∧ (mainDelivery "P" (some "T") "L" false "F").raised = true := by
  have h := report_always_delivered "P" (some "T") "L" "F" false
  have h2 := h.2.1 rfl
  have h3 := h.2.2.1 rfl
  exact ⟨h.1, h2.1, h3.1, h3.2⟩

/-- C8 counterexample: project metadata whose mirror URL carries an "@"
revision pin while the public location does not.  The pin check of
`get_revisions` inspects the public location string, so a head-revision
query is issued on the already pinned mirror and both strings are changed,
refuting the claim that a pinned mirror URL suppresses the query. -/
theorem get_revisions_cex :
    strHas "svn://m/bm@7" "@" = true
    ∧ (getRevisions (fun _ => "99") ⟨some "svn://a/b", some "svn://m/bm@7"⟩
        ⟨none, none⟩).2 = ["svn://m/bm@7"]
    ∧ (getRevisions (fun _ => "99") ⟨some "svn://a/b", some "svn://m/bm@7"⟩
        ⟨none, none⟩).1.1
      = ⟨some "svn://a/b@99", some "svn://m/bm@7@99"⟩ := by
  decide

/-- C8 amended: `get_revisions` issues a head-revision query for a location
exactly when both location strings are present and the public location
string contains a colon and no "@" pin; it then appends "@revision" to both
strings.  When the public location string already carries an "@" (or has no
colon), or either string is absent, no query is issued and the strings are
unchanged — the pin check inspects the public location, not the mirror. -/
theorem get_revisions_amended (headRev : String → String) (url murl : String) :
    (strHas url "@" = true ∨ strHas url ":" = false →
        getRevisionsLoc headRev ⟨some url, some murl⟩ = (⟨some url, some murl⟩, []))
    ∧ (strHas url ":" = true → strHas url "@" = false →
        getRevisionsLoc headRev ⟨some url, some murl⟩
          = (⟨some (url ++ "@" ++ headRev murl),
              some (murl ++ "@" ++ headRev murl)⟩, [murl]))
    ∧ getRevisionsLoc headRev ⟨none, some murl⟩ = (⟨none, some murl⟩, [])
    ∧ getRevisionsLoc headRev ⟨some url, none⟩ = (⟨some url, none⟩, []) := by
  refine ⟨?_, ?_, rfl, rfl⟩
  · intro h
    rw [getRevisionsLoc]
    rcases h with h | h <;> simp [h]
  · intro h1 h2
    rw [getRevisionsLoc]
    simp [h1, h2]

/-- Witness for the amended C8 theorem: a pinned public location issues no
query; an unpinned colon-bearing location issues one and appends the
revision to both strings. -/
theorem get_revisions_amended_witness :
    getRevisionsLoc (fun _ => "99")
        ⟨some "fcm:um.x_tr@vn13.0", some "fcm:um.xm_tr@vn13.0"⟩
      = (⟨some "fcm:um.x_tr@vn13.0", some "fcm:um.xm_tr@vn13.0"⟩, [])
    ∧ getRevisionsLoc (fun _ => "99") ⟨some "svn://a/b", some "svn://m/bm"⟩
      = (⟨some ("svn://a/b" ++ "@" ++ "99"), some ("svn://m/bm" ++ "@" ++ "99")⟩,
         ["svn://m/bm"]) :=
  ⟨(get_revisions_amended (fun _ => "99") "fcm:um.x_tr@vn13.0" "fcm:um.xm_tr@vn13.0").1
      (Or.inl (by decide)),
   (get_revisions_amended (fun _ => "99") "svn://a/b" "svn://m/bm").2.1
      (by decide) (by decide)⟩

theorem setupGo_facts (urls : List (String × String)) (repoOk : String → Bool) :
    ∀ sources : List (String × String),
      (∀ pr ∈ (setupGo urls repoOk sources).1, pr.2.valid = true)
      ∧ (setupGo urls repoOk sources).2
        = (sources.filter (fun p => !(mkProject urls repoOk p.1 p.2).valid)).map Prod.fst
      ∧ (setupGo urls repoOk sources).1.map Prod.fst
        = (sources.filter (fun p => (mkProject urls repoOk p.1 p.2).valid)).map Prod.fst := by
  intro sources
  induction sources with
  | nil => exact ⟨fun pr h => absurd h (List.not_mem_nil pr), rfl, rfl⟩
  | cons p rest ih =>
      obtain ⟨n, t⟩ := p
      cases hv : (mkProject urls repoOk n t).valid with
      | true =>
          refine ⟨?_, ?_, ?_⟩
          · intro pr hpr
            simp only [setupGo, hv, if_true] at hpr
            rcases List.mem_cons.mp hpr with he | hm
            · rw [he]
              exact hv
            · exact ih.1 pr hm
          · simp only [setupGo, hv, if_true, List.filter_cons, Bool.not_true,
              Bool.false_eq_true, if_false]
            exact ih.2.1
          · simp only [setupGo, hv, if_true, List.filter_cons, List.map_cons]
            rw [ih.2.2]
      | false =>
          refine ⟨?_, ?_, ?_⟩
          · intro pr hpr
            simp only [setupGo, hv, Bool.false_eq_true, if_false] at hpr
            exact ih.1 pr hpr
          · simp only [setupGo, hv, Bool.false_eq_true, if_false, List.filter_cons,
              Bool.not_false, if_true, List.map_cons]
            rw [ih.2.1]
          · simp only [setupGo, hv, Bool.false_eq_true, if_false, List.filter_cons]
            exact ih.2.2

/-- C9: after `JobSources.setup`, every project reachable through the
project map is valid, and the surviving raw job-source record holds exactly
the names of the valid projects, in the same order: a project whose mirror
cannot be confirmed is removed from both structures, not merely flagged.
The hypothesis reflects dictionary semantics: source names are unique. -/
theorem job_sources_setup_invariant (urls : List (String × String))
    (repoOk : String → Bool) (sources : List (String × String))
    (hnd : (sources.map Prod.fst).Nodup) :
    (∀ pr ∈ (jobSourcesSetup urls repoOk sources).1, pr.2.valid = true)
    ∧ (jobSourcesSetup urls repoOk sources).2.map Prod.fst
      = (jobSourcesSetup urls repoOk sources).1.map Prod.fst := by
  have hfacts := setupGo_facts urls repoOk sources
  refine ⟨fun pr hpr => hfacts.1 pr hpr, ?_⟩
  have hinj := List.inj_on_of_nodup_map hnd
  show (sources.filter
      (fun p => !((setupGo urls repoOk sources).2.contains p.1))).map Prod.fst
    = (setupGo urls repoOk sources).1.map Prod.fst
  rw [hfacts.2.2]
  congr 1
  apply List.filter_congr
  intro p hp
  rw [hfacts.2.1]
  cases hv : (mkProject urls repoOk p.1 p.2).valid with
  | true =>
      have hnc : ((sources.filter
          (fun q => !(mkProject urls repoOk q.1 q.2).valid)).map Prod.fst).contains p.1
          = false := by
        cases hcon : ((sources.filter
            (fun q => !(mkProject urls repoOk q.1 q.2).valid)).map Prod.fst).contains p.1 with
        | false => rfl
        | true =>
            exfalso
            have hmem : p.1 ∈ (sources.filter
                (fun q => !(mkProject urls repoOk q.1 q.2).valid)).map Prod.fst :=
              List.mem_of_elem_eq_true hcon
            obtain ⟨q, hq, hq1⟩ := List.mem_map.mp hmem
            have hq2 := List.mem_filter.mp hq
            have : q = p := hinj hq2.1 hp hq1
            rw [this] at hq2
            rw [hv] at hq2
            simp at hq2
      rw [hnc]
      rfl
  | false =>
      have hmem : p.1 ∈ (sources.filter
          (fun q => !(mkProject urls repoOk q.1 q.2).valid)).map Prod.fst := by
        apply List.mem_map.mpr
        refine ⟨p, List.mem_filter.mpr ⟨hp, ?_⟩, rfl⟩
        rw [hv]
        rfl
      have hcon := List.elem_eq_true_of_mem hmem
      rw [List.contains, hcon]
      rfl

/-- Witness for C9 at a concrete run: of two sources one mirror exists and
one does not; the raw record and the project map agree on the surviving
name. -/
theorem job_sources_setup_witness :
    (jobSourcesSetup [] (fun s => !(s == "bad"))
        [("A", "svn://g/x"), ("B", "bad")]).2.map Prod.fst
      = (jobSourcesSetup [] (fun s => !(s == "bad"))
          [("A", "svn://g/x"), ("B", "bad")]).1.map Prod.fst :=
  (job_sources_setup_invariant [] (fun s => !(s == "bad"))
      [("A", "svn://g/x"), ("B", "bad")] (by decide)).2

/-- C10: every row sent to the generic table formatter is rendered with
exactly as many cells as the table has column headers: a shorter row is
padded with empty cells to the header count before rendering, and a row
longer than the header list is rejected with the IndexError instead of a
malformed rendering. -/
theorem trac_table_row_cells (columns : List String) (row : List (Option String)) :
    (row.length ≤ columns.length →
        formatTracRow columns row = Except.ok (renderCells (padCells columns row))
        ∧ (padCells columns row).length = columns.length)
    ∧ (columns.length < row.length →
        formatTracRow columns row = Except.error "row is too long for table") := by
  constructor
  · intro h
    constructor
    · rw [formatTracRow, if_neg (by omega)]
    · rw [padCells, List.length_append, List.length_replicate]
      omega
  · intro h
    rw [formatTracRow, if_pos h]

/-- Witness for C10: a one-cell row under two headers is padded to two
cells; a three-cell row under two headers raises. -/
theorem trac_table_row_cells_witness :
    (formatTracRow ["Task", "State"] [some "t"]
        = Except.ok (renderCells (padCells ["Task", "State"] [some "t"]))
      ∧ (padCells ["Task", "State"] [some "t"]).length = 2)
    ∧ formatTracRow ["Task"] [some "a", some "b", some "c"]
      = Except.error "row is too long for table" :=
  ⟨(trac_table_row_cells ["Task", "State"] [some "t"]).1 (by decide),
   (trac_table_row_cells ["Task"] [some "a", some "b", some "c"]).2 (by decide)⟩
